import Mathlib

/-! Shallow embedding of the clap-stdin core (src/lib.rs and
src/maybe_stdin_from_source.rs).

The process-wide atomic flag STDIN_HAS_BEEN_READ is modelled as an explicit
boolean threaded through every operation.  The ambient process environment
(what a full read of standard input would return, and what opening a file
path would return) is modelled by a `World` record; `Except String` models a
fallible OS call whose error renders to a display string.
-/

deriving instance DecidableEq for Except

namespace ClapStdin

/-- Unicode white-space test used by Rust's `char::is_whitespace`
(the White_Space property). -/
def rustIsWhitespace (c : Char) : Bool :=
  c = ' ' || c = '\t' || c = '\n' || c = '\x0b' || c = '\x0c' || c = '\r' ||
  c = '\u0085' || c = ' ' || c = ' ' ||
  c = ' ' || c = ' ' || c = ' ' || c = ' ' ||
  c = ' ' || c = ' ' || c = ' ' || c = ' ' ||
  c = ' ' || c = ' ' || c = ' ' ||
  c = ' ' || c = ' ' || c = ' ' || c = ' ' || c = '　'

/-- Rust `str::trim`: drop leading and trailing white-space characters. -/
def rustTrim (s : String) : String :=
  String.mk (((s.data.dropWhile rustIsWhitespace).reverse.dropWhile
    rustIsWhitespace).reverse)

/-- Rust `str::split(D)` on a character delimiter, over the char list. -/
def splitCharAux (D : Char) : List Char → List (List Char)
  | [] => [[]]
  | c :: cs =>
    match splitCharAux D cs with
    | [] => [[]]
    | r :: rs => if c = D then [] :: r :: rs else (c :: r) :: rs

/-- Rust `str::split(D)`: the fields between occurrences of `D`,
empty fields included (splitting the empty string yields one empty field). -/
def rustSplitChar (D : Char) (s : String) : List String :=
  (splitCharAux D s.data).map String.mk

/-- Drop one trailing carriage return, as Rust `lines` does on each line
that was terminated by a newline. -/
def stripCR (s : String) : String :=
  match s.data.reverse with
  | '\r' :: rest => String.mk rest.reverse
  | _ => s

/-- Rust `str::lines`: split at `\n`, drop the optional final empty fragment,
and strip a `\r` that immediately preceded a `\n`. -/
def rustLines (s : String) : List String :=
  match (rustSplitChar '\n' s).reverse with
  | [] => []
  | last :: revInit =>
    let init := (revInit.map stripCR).reverse
    if last = "" then init else init ++ [last]

/-- The error enum `StdinError` of src/lib.rs.  `StdIn` wraps an underlying
I/O error, rendered to its display string. -/
inductive StdinError where
  | StdInRepeatedUse
  | StdIn (msg : String)
  | FromStr (msg : String)
  | FromSource (msg : String)
deriving DecidableEq, Repr

/-- The `Source` enum of src/lib.rs: value contents come either from stdin
or from a CLI-provided string. -/
inductive Source where
  | Stdin
  | Arg (value : String)
deriving DecidableEq, Repr

/-- The process environment: what reading all of standard input to a string
returns, and what opening a given file path returns (content of the opened
file, or the I/O error's display string). -/
structure World where
  stdinRead : Except String String
  fs : String → Except String String

/-- The reader handle produced by `Source::into_reader`: either the live
standard-input stream or an opened file. -/
inductive Reader where
  | stdinHandle
  | file (content : String)
deriving DecidableEq, Repr

/-- Rust impl of FromStr for `Source` (src/lib.rs lines 77-86): the exact
token `-` gives `Stdin`, any other token is kept verbatim in `Arg`; never
an error. -/
def Source.from_str (s : String) : Except StdinError Source :=
  if s = "-" then .ok .Stdin else .ok (.Arg s)

/-- Rust `Source::get_value` (src/lib.rs lines 60-74).  The boolean argument is
the current value of STDIN_HAS_BEEN_READ; the boolean result is its value
after the call.  For `Stdin`: if the flag is set, fail with
`StdInRepeatedUse`; otherwise set the flag, then read all of stdin to a
string (an I/O failure propagates as `StdIn`).  For `Arg`, return the stored
string with no I/O and no flag access. -/
def Source.get_value (w : World) : Source → Bool → Except StdinError String × Bool
  | .Stdin, g =>
    if g then (.error .StdInRepeatedUse, g)
    else
      match w.stdinRead with
      | .ok s => (.ok s, true)
      | .error e => (.error (.StdIn e), true)
  | .Arg value, g => (.ok value, g)

/-- Rust `Source::into_reader` (src/lib.rs lines 43-58).  For `Stdin`: guard
check/set as in `get_value`, then hand back the live stdin stream.  For
`Arg filepath`: open the path as a file, propagating an open failure as
`StdIn`; the flag is not touched. -/
def Source.into_reader (w : World) : Source → Bool → Except StdinError Reader × Bool
  | .Stdin, g =>
    if g then (.error .StdInRepeatedUse, g)
    else (.ok .stdinHandle, true)
  | .Arg filepath, g =>
    match w.fs filepath with
    | .ok c => (.ok (.file c), g)
    | .error e => (.error (.StdIn e), g)

/-- Rust `Stdin::lines` (src/lib.rs lines 103-110): guard check/set, then an
iterator of line results from the live stdin stream (a failing underlying
read surfaces as a per-item error). -/
def Stdin.lines (w : World) (g : Bool) :
    Except StdinError (List (Except String String)) × Bool :=
  if g then (.error .StdInRepeatedUse, g)
  else
    let items := match w.stdinRead with
      | .ok s => (rustLines s).map Except.ok
      | .error e => [Except.error e]
    (.ok items, true)

/-- Rust `Stdin::read_string` (src/lib.rs lines 99-101): delegates to
the `get_value` of a fresh `Source::Stdin`. -/
def Stdin.read_string (w : World) (g : Bool) : Except StdinError String × Bool :=
  Source.get_value w .Stdin g

/-- The test whether a `Source` is the `Stdin` variant, as computed by the
Rust matches macro in both adapter entry points. -/
def Source.isStdinVariant : Source → Bool
  | .Stdin => true
  | .Arg _ => false

/-- Rust collect of an iterator of results into a single result: all items,
or the first error. -/
def collectResults {ε α : Type} : List (Except ε α) → Except ε (List α)
  | [] => .ok []
  | x :: xs =>
    match x with
    | .error e => .error e
    | .ok a =>
      match collectResults xs with
      | .error e => .error e
      | .ok rest => .ok (a :: rest)

/-- The fused map-then-collect pipeline of `MaybeStdinVec::from_str`:
convert the pieces left to right with the caller's converter, stopping at
the first failure, whose display text the map-err step wraps in
`StdinError::FromStr`. -/
def parseAll {T : Type} (fromStr : String → Except String T) :
    List String → Except StdinError (List T)
  | [] => .ok []
  | x :: xs =>
    match fromStr x with
    | .error e => .error (.FromStr e)
    | .ok v =>
      match parseAll fromStr xs with
      | .error e => .error e
      | .ok rest => .ok (v :: rest)

/-- The first element of the list on which `fromStr` fails, rendered to its
error string; `none` when every element converts. -/
def firstErr {T : Type} (fromStr : String → Except String T) :
    List String → Option String
  | [] => none
  | x :: xs =>
    match fromStr x with
    | .error e => some e
    | .ok _ => firstErr fromStr xs

/-- The wrapper `MaybeStdinFromSource<T>` of src/maybe_stdin_from_source.rs:
a parsed value and its provenance flag. -/
structure MaybeStdinFromSource (T : Type) where
  inner : T
  is_stdin : Bool
deriving Repr, DecidableEq

/-- The wrapper `MaybeStdinVec<T, D>`: a parsed sequence and its provenance
flag (the delimiter is passed as an argument to the parsing operation). -/
structure MaybeStdinVec (T : Type) where
  inner : List T
  is_stdin : Bool
deriving Repr, DecidableEq

/-- Rust impl of FromStr for `MaybeStdinFromSource` (src/maybe_stdin_from_source.rs
lines 75-92): build the `Source`, record the provenance flag, hand the live
source to the caller-supplied `from_source` routine, and wrap its error's
display text in `StdinError::FromStr`.  `from_source` is modelled as a
function that receives the source, the world and the current guard flag and
returns its result together with the updated flag; `display` renders the
routine's error type. -/
def MaybeStdinFromSource.from_str {T ε : Type} (display : ε → String)
    (from_source : Source → World → Bool → Except ε T × Bool)
    (w : World) (s : String) (g : Bool) :
    Except StdinError (MaybeStdinFromSource T) × Bool :=
  match Source.from_str s with
  | .error e => (.error e, g)
  | .ok source =>
    match from_source source w g with
    | (.error e, g2) => (.error (.FromStr (display e)), g2)
    | (.ok v, g2) => (.ok ⟨v, source.isStdinVariant⟩, g2)

/-- The deref-mut impl on `MaybeStdinFromSource` exposes a mutable
reference to `inner` only: any mutation through it rewrites the inner value
and nothing else. -/
def MaybeStdinFromSource.derefMutUpdate {T : Type} (a : MaybeStdinFromSource T)
    (f : T → T) : MaybeStdinFromSource T :=
  { a with inner := f a.inner }

/-- Rust `MaybeStdinFromSource::into_inner`. -/
def MaybeStdinFromSource.into_inner {T : Type} (a : MaybeStdinFromSource T) : T :=
  a.inner

/-- Rust impl of FromStr for `MaybeStdinVec` (src/maybe_stdin_from_source.rs
lines 144-172): build the `Source`, record the provenance flag, materialize
the text via `get_value`, trim it, split it on newlines when the source is
stdin and on the delimiter `D` otherwise, and convert every piece with the
caller's `fromStr` (whose error is already rendered to its display text),
collecting the first failure as `StdinError::FromStr`. -/
def MaybeStdinVec.from_str {T : Type} (D : Char)
    (fromStr : String → Except String T) (w : World) (s : String) (g : Bool) :
    Except StdinError (MaybeStdinVec T) × Bool :=
  match Source.from_str s with
  | .error e => (.error e, g)
  | .ok source =>
    if source.isStdinVariant then
      match source.get_value w g with
      | (.error e, g2) => (.error e, g2)
      | (.ok text, g2) =>
        match parseAll fromStr (rustLines (rustTrim text)) with
        | .error e => (.error e, g2)
        | .ok inner => (.ok ⟨inner, source.isStdinVariant⟩, g2)
    else
      match source.get_value w g with
      | (.error e, g2) => (.error e, g2)
      | (.ok text, g2) =>
        match parseAll fromStr (rustSplitChar D (rustTrim text)) with
        | .error e => (.error e, g2)
        | .ok inner => (.ok ⟨inner, source.isStdinVariant⟩, g2)

/-- The deref-mut impl on `MaybeStdinVec` exposes a mutable reference to
`inner` only. -/
def MaybeStdinVec.derefMutUpdate {T : Type} (a : MaybeStdinVec T)
    (f : List T → List T) : MaybeStdinVec T :=
  { a with inner := f a.inner }

/-- Rust `MaybeStdinVec::into_inner`. -/
def MaybeStdinVec.into_inner {T : Type} (a : MaybeStdinVec T) : List T :=
  a.inner

/-- A process abort: `panic!` terminates the process instead of returning. -/
inductive Panic where
  | panicked (msg : String)
deriving DecidableEq, Repr

/-- Rust impl of FromIterator of strings for `MaybeStdinVec`
(src/maybe_stdin_from_source.rs lines 174-189): convert every string with the
caller's `fromStr`, mark `is_stdin = false`; the first conversion failure
aborts the process via panic with a message that prefixes the element's
error display text with a fixed failed-to-parse preamble. -/
def MaybeStdinVec.from_iter {T : Type} (fromStr : String → Except String T)
    (xs : List String) : Except Panic (MaybeStdinVec T) :=
  match collectResults (xs.map fromStr) with
  | .ok inner => .ok ⟨inner, false⟩
  | .error e => .error (.panicked ("Failed to parse input: " ++ e))

/-! Trace semantics for the process-wide guard.

Every stdin access in the crate goes through one of three entry points:
`Source::get_value`, `Source::into_reader`, or `Stdin::lines`.  A process
run is a sequence of such operations threading the STDIN_HAS_BEEN_READ flag. -/

/-- One guard-relevant operation of the crate. -/
inductive Op where
  | opGetValue (src : Source)
  | opIntoReader (src : Source)
  | opLines
deriving DecidableEq, Repr

/-- Whether the operation attempts a read of standard input. -/
def Op.stdinSourced : Op → Bool
  | .opGetValue .Stdin => true
  | .opIntoReader .Stdin => true
  | .opLines => true
  | _ => false

/-- The visible result of one operation. -/
inductive Outcome where
  | gotString (s : String)
  | gotReader (r : Reader)
  | gotLines (ls : List (Except String String))
  | failed (e : StdinError)
deriving Repr, DecidableEq

/-- An outcome that is not an error. -/
def Outcome.succeeded : Outcome → Bool
  | .failed _ => false
  | _ => true

/-- Run one operation against the world at the given guard state. -/
def runOp (w : World) : Op → Bool → Outcome × Bool
  | .opGetValue src, g =>
    match src.get_value w g with
    | (.ok s, g2) => (.gotString s, g2)
    | (.error e, g2) => (.failed e, g2)
  | .opIntoReader src, g =>
    match src.into_reader w g with
    | (.ok r, g2) => (.gotReader r, g2)
    | (.error e, g2) => (.failed e, g2)
  | .opLines, g =>
    match Stdin.lines w g with
    | (.ok ls, g2) => (.gotLines ls, g2)
    | (.error e, g2) => (.failed e, g2)

/-- Run a sequence of operations, recording each outcome together with the
guard state right after it. -/
def runOps (w : World) : List Op → Bool → List (Outcome × Bool)
  | [], _ => []
  | op :: rest, g =>
    let r := runOp w op g
    r :: runOps w rest r.2

/-- The number of stdin-sourced operations in the run that succeed. -/
def stdinSuccessCount (w : World) (ops : List Op) (g : Bool) : Nat :=
  (ops.zip (runOps w ops g)).countP
    (fun pr => pr.1.stdinSourced && pr.2.1.succeeded)

/-! Interleaving model of the guard protocol.

`Source::get_value` and its siblings run, on the stdin path,
`load(Acquire)` followed by `store(true, SeqCst)` as two separate atomic
instructions.  A thread is at one of three program points; a step performs
the thread's next instruction against the shared flag. -/

/-- Program counter of one thread attempting the stdin guard protocol. -/
inductive TState where
  | start
  | loaded (obs : Bool)
  | finished (success : Bool)
deriving DecidableEq, Repr

/-- One atomic instruction of the guard protocol: from `start`, load the
flag; from `loaded`, either return the repeated-use failure (flag was set)
or store `true` and proceed to the read. -/
def threadStep : TState → Bool → TState × Bool
  | .start, g => (.loaded g, g)
  | .loaded obs, g => if obs then (.finished false, g) else (.finished true, true)
  | .finished s, g => (.finished s, g)

/-- Two threads sharing the flag. -/
structure Sys2 where
  t0 : TState
  t1 : TState
  flag : Bool
deriving DecidableEq, Repr

/-- Let the scheduled thread (`false` = thread 0) perform its next
instruction. -/
def sysStep (s : Sys2) (pick : Bool) : Sys2 :=
  if pick then
    let (t, f) := threadStep s.t1 s.flag
    { s with t1 := t, flag := f }
  else
    let (t, f) := threadStep s.t0 s.flag
    { s with t0 := t, flag := f }

/-- Run a schedule of thread picks. -/
def sysRun (s : Sys2) : List Bool → Sys2
  | [] => s
  | pick :: rest => sysRun (sysStep s pick) rest

/-- Both instructions of one thread executed back to back with no
interleaving (the serialized attempt): returns whether the attempt won the
guard, and the flag afterwards. -/
def serialAttempt (g : Bool) : Bool × Bool :=
  let (t1, g1) := threadStep .start g
  let (t2, g2) := threadStep t1 g1
  (t2 = TState.finished true, g2)

/-- Outcomes of `n` serialized attempts run one after the other. -/
def serialAttempts (g : Bool) : Nat → List Bool
  | 0 => []
  | n + 1 =>
    let (s, g2) := serialAttempt g
    s :: serialAttempts g2 n

/-! Concrete instances used by the theorems. -/

/-- A concrete world: stdin holds three newline-terminated tokens, and no
file path opens successfully. -/
def wex : World := ⟨.ok "a\nb\nc\n", fun _ => .error "no such file"⟩

/-- A caller element type whose conversion always succeeds with the raw
string. -/
def okStr : String → Except String String := fun s => .ok s

/-- The value of one decimal digit character. -/
def digitVal (c : Char) : Option Nat :=
  if c = '0' then some 0
  else if c = '1' then some 1
  else if c = '2' then some 2
  else if c = '3' then some 3
  else if c = '4' then some 4
  else if c = '5' then some 5
  else if c = '6' then some 6
  else if c = '7' then some 7
  else if c = '8' then some 8
  else if c = '9' then some 9
  else none

/-- Accumulate a decimal numeral; `none` on the first non-digit. -/
def natOfDigitsAcc : List Char → Nat → Option Nat
  | [], n => some n
  | c :: cs, n =>
    match digitVal c with
    | some d => natOfDigitsAcc cs (10 * n + d)
    | none => none

/-- A caller element type parsing decimal naturals, failing on anything
else with a display message naming the offending element. -/
def parseNat (s : String) : Except String Nat :=
  match s.data with
  | [] => .error ("invalid digit in " ++ s)
  | cs =>
    match natOfDigitsAcc cs 0 with
    | some n => .ok n
    | none => .error ("invalid digit in " ++ s)

/-! Helper lemmas. -/

theorem source_from_str_eq (t : String) :
    Source.from_str t = .ok (if t = "-" then Source.Stdin else Source.Arg t) := by
  unfold Source.from_str
  split <;> rfl

theorem source_from_str_ne_error (t : String) (e : StdinError) :
    Source.from_str t ≠ .error e := by
  unfold Source.from_str
  split <;> intro hc <;> cases hc

theorem source_from_str_variant {t : String} {source : Source}
    (heq : Source.from_str t = .ok source) :
    source.isStdinVariant = true ↔ t = "-" := by
  unfold Source.from_str at heq
  by_cases ht : t = "-"
  · rw [if_pos ht] at heq
    injection heq with h
    subst h
    simp [Source.isStdinVariant, ht]
  · rw [if_neg ht] at heq
    injection heq with h
    subst h
    simp [Source.isStdinVariant, ht]

theorem parseAll_ok_map {T : Type} (f : String → T) :
    ∀ xs : List String,
      parseAll (fun s => .ok (f s)) xs = .ok (xs.map f) := by
  intro xs
  induction xs with
  | nil => rfl
  | cons x xs ih => simp [parseAll, ih]

theorem parseAll_of_firstErr {T : Type} (fromStr : String → Except String T) :
    ∀ (xs : List String) (m : String), firstErr fromStr xs = some m →
      parseAll fromStr xs = .error (.FromStr m) := by
  intro xs
  induction xs with
  | nil => intro m h; cases h
  | cons x xs ih =>
    intro m h
    unfold firstErr at h
    cases hx : fromStr x with
    | error e =>
      rw [hx] at h
      injection h with h
      subst h
      simp [parseAll, hx]
    | ok v =>
      rw [hx] at h
      simp [parseAll, hx, ih m h]

theorem collect_of_firstErr {T : Type} (fromStr : String → Except String T) :
    ∀ (xs : List String) (m : String), firstErr fromStr xs = some m →
      collectResults (xs.map fromStr) = .error m := by
  intro xs
  induction xs with
  | nil => intro m h; cases h
  | cons x xs ih =>
    intro m h
    unfold firstErr at h
    cases hx : fromStr x with
    | error e =>
      rw [hx] at h
      injection h with h
      subst h
      simp [collectResults, hx]
    | ok v =>
      rw [hx] at h
      simp [collectResults, hx, ih m h]

theorem maybeStdinFromSource_from_str_flag {T ε : Type} {display : ε → String}
    {from_source : Source → World → Bool → Except ε T × Bool}
    {w : World} {t : String} {g g2 : Bool} {a : MaybeStdinFromSource T}
    (h : MaybeStdinFromSource.from_str display from_source w t g = (.ok a, g2)) :
    ∃ source, Source.from_str t = .ok source ∧
      a.is_stdin = source.isStdinVariant := by
  unfold MaybeStdinFromSource.from_str at h
  split at h
  · exact absurd (by assumption) (source_from_str_ne_error t _)
  · next source heq =>
    refine ⟨source, heq, ?_⟩
    split at h
    · simp at h
    · simp only [Prod.mk.injEq, Except.ok.injEq] at h
      obtain ⟨ha, -⟩ := h
      subst ha
      rfl

theorem maybeStdinVec_from_str_flag {T : Type} {D : Char}
    {fromStr : String → Except String T}
    {w : World} {t : String} {g g2 : Bool} {a : MaybeStdinVec T}
    (h : MaybeStdinVec.from_str D fromStr w t g = (.ok a, g2)) :
    ∃ source, Source.from_str t = .ok source ∧
      a.is_stdin = source.isStdinVariant := by
  unfold MaybeStdinVec.from_str at h
  split at h
  · exact absurd (by assumption) (source_from_str_ne_error t _)
  · next source heq =>
    refine ⟨source, heq, ?_⟩
    split at h
    · split at h
      · simp at h
      · split at h
        · simp at h
        · simp only [Prod.mk.injEq, Except.ok.injEq] at h
          obtain ⟨ha, -⟩ := h
          subst ha
          rfl
    · split at h
      · simp at h
      · split at h
        · simp at h
        · simp only [Prod.mk.injEq, Except.ok.injEq] at h
          obtain ⟨ha, -⟩ := h
          subst ha
          rfl

theorem runOp_guard_mono (w : World) (op : Op) : (runOp w op true).2 = true := by
  cases op with
  | opGetValue src =>
    cases src with
    | Stdin => rfl
    | Arg v => rfl
  | opIntoReader src =>
    cases src with
    | Stdin => rfl
    | Arg p =>
      rcases hf : w.fs p with c | e <;>
        simp [runOp, Source.into_reader, hf]
  | opLines => rfl

theorem runOp_stdin_consumed (w : World) (op : Op)
    (h : op.stdinSourced = true) :
    runOp w op true = (.failed .StdInRepeatedUse, true) := by
  cases op with
  | opGetValue src =>
    cases src with
    | Stdin => rfl
    | Arg v => exact Bool.noConfusion h
  | opIntoReader src =>
    cases src with
    | Stdin => rfl
    | Arg p => exact Bool.noConfusion h
  | opLines => rfl

theorem runOp_stdin_sets (w : World) (op : Op) (g : Bool)
    (h : op.stdinSourced = true) : (runOp w op g).2 = true := by
  cases g
  · cases op with
    | opGetValue src =>
      cases src with
      | Stdin =>
        rcases hr : w.stdinRead with s | e <;>
          simp [runOp, Source.get_value, hr]
      | Arg v => exact Bool.noConfusion h
    | opIntoReader src =>
      cases src with
      | Stdin => rfl
      | Arg p => exact Bool.noConfusion h
    | opLines => rfl
  · exact runOp_guard_mono w op

theorem runOps_length (w : World) :
    ∀ (ops : List Op) (g : Bool), (runOps w ops g).length = ops.length := by
  intro ops
  induction ops with
  | nil => intro g; rfl
  | cons op rest ih => intro g; simp [runOps, ih]

theorem runOps_consumed_all_fail (w : World) :
    ∀ (ops : List Op) (j : Nat) (op : Op), ops[j]? = some op →
      op.stdinSourced = true →
      ((runOps w ops true)[j]?.map Prod.fst)
        = some (Outcome.failed .StdInRepeatedUse) := by
  intro ops
  induction ops with
  | nil => intro j op hj; simp at hj
  | cons op0 rest ih =>
    intro j op hj hstdin
    cases j with
    | zero =>
      rw [List.getElem?_cons_zero] at hj
      injection hj with hj
      subst hj
      simp [runOps, List.getElem?_cons_zero, runOp_stdin_consumed w op0 hstdin]
    | succ j =>
      rw [List.getElem?_cons_succ] at hj
      simp only [runOps, List.getElem?_cons_succ]
      rw [runOp_guard_mono w op0]
      exact ih j op hj hstdin

theorem runOps_consumed_no_success (w : World) :
    ∀ (ops : List Op) (pr : Op × (Outcome × Bool)),
      pr ∈ ops.zip (runOps w ops true) → pr.1.stdinSourced = true →
      pr.2.1.succeeded = false := by
  intro ops
  induction ops with
  | nil => intro pr h; simp [runOps] at h
  | cons op0 rest ih =>
    intro pr h hstdin
    simp only [runOps, List.zip_cons_cons] at h
    rcases List.mem_cons.mp h with h0 | h1
    · subst h0
      simp only at hstdin ⊢
      rw [runOp_stdin_consumed w op0 hstdin]
      rfl
    · rw [runOp_guard_mono w op0] at h1
      exact ih pr h1 hstdin

theorem runOps_guard_stays (w : World) :
    ∀ (ops : List Op) (p : Outcome × Bool),
      p ∈ runOps w ops true → p.2 = true := by
  intro ops
  induction ops with
  | nil => intro p h; simp [runOps] at h
  | cons op0 rest ih =>
    intro p h
    simp only [runOps] at h
    rcases List.mem_cons.mp h with h0 | h1
    · subst h0
      exact runOp_guard_mono w op0
    · rw [runOp_guard_mono w op0] at h1
      exact ih p h1

theorem runOps_guard_mono_idx (w : World) :
    ∀ (ops : List Op) (g : Bool) (i j : Nat) (pi pj : Outcome × Bool),
      i ≤ j →
      (runOps w ops g)[i]? = some pi → (runOps w ops g)[j]? = some pj →
      pi.2 = true → pj.2 = true := by
  intro ops
  induction ops with
  | nil => intro g i j pi pj hij hi hj hpi; simp [runOps] at hi
  | cons op0 rest ih =>
    intro g i j pi pj hij hi hj hpi
    cases i with
    | zero =>
      cases j with
      | zero =>
        simp only [runOps, List.getElem?_cons_zero] at hi hj
        injection hi with hi
        injection hj with hj
        subst hi
        subst hj
        exact hpi
      | succ j =>
        simp only [runOps, List.getElem?_cons_zero,
          List.getElem?_cons_succ] at hi hj
        injection hi with hi
        subst hi
        rw [hpi] at hj
        exact runOps_guard_stays w rest pj (List.getElem?_mem hj)
    | succ i =>
      cases j with
      | zero => exact absurd hij (by omega)
      | succ j =>
        simp only [runOps, List.getElem?_cons_succ] at hi hj
        exact ih (runOp w op0 g).2 i j pi pj (by omega) hi hj hpi

theorem runOps_after_success_fail (w : World) :
    ∀ (ops : List Op) (g : Bool) (i j : Nat) (opi opj : Op)
      (pi : Outcome × Bool),
      i < j → ops[i]? = some opi → opi.stdinSourced = true →
      (runOps w ops g)[i]? = some pi → pi.1.succeeded = true →
      ops[j]? = some opj → opj.stdinSourced = true →
      ((runOps w ops g)[j]?.map Prod.fst)
        = some (Outcome.failed .StdInRepeatedUse) := by
  intro ops
  induction ops with
  | nil => intro g i j opi opj pi hij hi; simp at hi
  | cons op0 rest ih =>
    intro g i j opi opj pi hij hi hstdin hri hsucc hj hstdinj
    cases i with
    | zero =>
      rw [List.getElem?_cons_zero] at hi
      injection hi with hi
      subst hi
      cases j with
      | zero => exact absurd hij (by omega)
      | succ j =>
        rw [List.getElem?_cons_succ] at hj
        simp only [runOps, List.getElem?_cons_zero] at hri
        injection hri with hri
        simp only [runOps, List.getElem?_cons_succ]
        rw [runOp_stdin_sets w op0 g hstdin]
        exact runOps_consumed_all_fail w rest j opj hj hstdinj
    | succ i =>
      cases j with
      | zero => exact absurd hij (by omega)
      | succ j =>
        rw [List.getElem?_cons_succ] at hi hj
        simp only [runOps, List.getElem?_cons_succ] at hri ⊢
        exact ih (runOp w op0 g).2 i j opi opj pi (by omega) hi hstdin hri
          hsucc hj hstdinj

theorem stdinSuccessCount_le_one (w : World) :
    ∀ (ops : List Op) (g : Bool), stdinSuccessCount w ops g ≤ 1 := by
  intro ops
  induction ops with
  | nil => intro g; simp [stdinSuccessCount, runOps]
  | cons op0 rest ih =>
    intro g
    unfold stdinSuccessCount
    simp only [runOps, List.zip_cons_cons, List.countP_cons]
    by_cases hp :
        (op0.stdinSourced && (runOp w op0 g).1.succeeded) = true
    · rw [if_pos hp]
      obtain ⟨hst, -⟩ := Bool.and_eq_true _ _ |>.mp hp
      rw [runOp_stdin_sets w op0 g hst]
      have hzero :
          (rest.zip (runOps w rest true)).countP
            (fun pr => pr.1.stdinSourced && pr.2.1.succeeded) = 0 := by
        refine List.countP_eq_zero.mpr ?_
        intro pr hpr
        simp only [Bool.and_eq_true, not_and]
        intro hs hcontra
        rw [runOps_consumed_no_success w rest pr hpr hs] at hcontra
        exact Bool.noConfusion hcontra
      rw [hzero]
    · rw [if_neg hp]
      simpa using ih (runOp w op0 g).2

/-! The claims. -/

/-- C1: process-wide single-read guarantee, over any sequence of guard
operations run from the initial unset flag: at most one stdin-sourced
operation succeeds; once a stdin-sourced operation at position `i` has
succeeded, every later stdin-sourced operation fails with
`StdInRepeatedUse`, whichever of the three entry points performs it; and
the guard is never reset — once the recorded flag is true it stays true for
the rest of the run. -/
theorem single_read_guarantee (w : World) (ops : List Op) :
    stdinSuccessCount w ops false ≤ 1 ∧
    (∀ (i j : Nat) (opi opj : Op) (pi : Outcome × Bool),
      i < j → ops[i]? = some opi → opi.stdinSourced = true →
      (runOps w ops false)[i]? = some pi → pi.1.succeeded = true →
      ops[j]? = some opj → opj.stdinSourced = true →
      ((runOps w ops false)[j]?.map Prod.fst)
        = some (Outcome.failed .StdInRepeatedUse)) ∧
    (∀ (i j : Nat) (pi pj : Outcome × Bool), i ≤ j →
      (runOps w ops false)[i]? = some pi →
      (runOps w ops false)[j]? = some pj →
      pi.2 = true → pj.2 = true) :=
  ⟨stdinSuccessCount_le_one w ops false,
   fun i j opi opj pi => runOps_after_success_fail w ops false i j opi opj pi,
   fun i j pi pj => runOps_guard_mono_idx w ops false i j pi pj⟩

theorem single_read_guarantee_witness :
    ((runOps wex [Op.opGetValue Source.Stdin, Op.opLines] false)[1]?.map
      Prod.fst) = some (Outcome.failed StdinError.StdInRepeatedUse) :=
  (single_read_guarantee wex [Op.opGetValue Source.Stdin, Op.opLines]).2.1
    0 1 (Op.opGetValue Source.Stdin) Op.opLines
    (Outcome.gotString "a\nb\nc\n", true) (by decide) rfl rfl rfl rfl rfl rfl

/-- C3: the recorded guard protocol is a separate atomic load followed by
an atomic store, not an atomic test-and-set.  Under the interleaving where
thread 0 loads, thread 1 loads, then each stores and proceeds,
both threads observe the flag unset and both proceed
to read stdin, so the claimed mutual exclusion fails; serialized
(non-interleaved) attempts do admit exactly one winner. -/
theorem guard_check_then_act_race :
    sysRun ⟨.start, .start, false⟩ [false, true, false, true]
      = ⟨.finished true, .finished true, true⟩ ∧
    (serialAttempts false 3).count true = 1 :=
  ⟨rfl, rfl⟩

/-- C2: `Source` parsing never fails — the exact dash token yields the
`Stdin` variant and any other token `t` yields `Arg t` holding the token
verbatim — and the `is_stdin` flag of any adapter constructed from token
`t` is true iff `t` is the dash token. -/
theorem source_parse_total_and_flag :
    (∀ t : String, Source.from_str t =
      .ok (if t = "-" then Source.Stdin else Source.Arg t)) ∧
    (∀ (T ε : Type) (display : ε → String)
      (from_source : Source → World → Bool → Except ε T × Bool)
      (w : World) (t : String) (g g2 : Bool) (a : MaybeStdinFromSource T),
      MaybeStdinFromSource.from_str display from_source w t g = (.ok a, g2) →
      (a.is_stdin = true ↔ t = "-")) ∧
    (∀ (T : Type) (D : Char) (fromStr : String → Except String T)
      (w : World) (t : String) (g g2 : Bool) (a : MaybeStdinVec T),
      MaybeStdinVec.from_str D fromStr w t g = (.ok a, g2) →
      (a.is_stdin = true ↔ t = "-")) := by
  refine ⟨source_from_str_eq, ?_, ?_⟩
  · intro T ε display from_source w t g g2 a h
    obtain ⟨source, heq, hflag⟩ := maybeStdinFromSource_from_str_flag h
    rw [hflag]
    exact source_from_str_variant heq
  · intro T D fromStr w t g g2 a h
    obtain ⟨source, heq, hflag⟩ := maybeStdinVec_from_str_flag h
    rw [hflag]
    exact source_from_str_variant heq

theorem source_parse_total_and_flag_witness :
    ((⟨"v", true⟩ : MaybeStdinFromSource String).is_stdin = true ↔
      ("-" : String) = "-") :=
  source_parse_total_and_flag.2.1 String String (fun e => e)
    (fun _ _ g => (.ok "v", g)) wex "-" false false ⟨"v", true⟩ rfl

/-- C4: for an `Arg value` source, `get_value` returns the stored string
immediately, with no I/O, no failure and no guard access; `into_reader`
instead treats the same payload as a file path, returning the opened file
on success and an `StdIn`-wrapped I/O error when the open fails, likewise
leaving the guard unchanged. -/
theorem arg_payload_asymmetry :
    (∀ (v : String) (w : World) (g : Bool),
      Source.get_value w (.Arg v) g = (.ok v, g)) ∧
    (∀ (p : String) (w : World) (g : Bool) (c : String), w.fs p = .ok c →
      Source.into_reader w (.Arg p) g = (.ok (.file c), g)) ∧
    (∀ (p : String) (w : World) (g : Bool) (e : String), w.fs p = .error e →
      Source.into_reader w (.Arg p) g = (.error (.StdIn e), g)) := by
  refine ⟨fun v w g => rfl, ?_, ?_⟩
  · intro p w g c hc
    simp only [Source.into_reader, hc]
  · intro p w g e he
    simp only [Source.into_reader, he]

theorem arg_payload_asymmetry_witness :
    Source.into_reader wex (.Arg "conf.txt") false
      = (.error (.StdIn "no such file"), false) :=
  arg_payload_asymmetry.2.2 "conf.txt" wex false "no such file" rfl

/-- C7: for every adapter the `is_stdin` flag records whether the
originating `Source` was the `Stdin` variant, assigned once by the string-parsing entry
point; the mutable access exposed by deref-mut reaches only the inner value
and leaves the flag unchanged. -/
theorem provenance_flag_invariant :
    (∀ (T ε : Type) (display : ε → String)
      (from_source : Source → World → Bool → Except ε T × Bool)
      (w : World) (t : String) (g g2 : Bool) (a : MaybeStdinFromSource T)
      (source : Source), Source.from_str t = .ok source →
      MaybeStdinFromSource.from_str display from_source w t g = (.ok a, g2) →
      a.is_stdin = source.isStdinVariant) ∧
    (∀ (T : Type) (D : Char) (fromStr : String → Except String T)
      (w : World) (t : String) (g g2 : Bool) (a : MaybeStdinVec T)
      (source : Source), Source.from_str t = .ok source →
      MaybeStdinVec.from_str D fromStr w t g = (.ok a, g2) →
      a.is_stdin = source.isStdinVariant) ∧
    (∀ (T : Type) (a : MaybeStdinFromSource T) (f : T → T),
      (a.derefMutUpdate f).is_stdin = a.is_stdin ∧
      (a.derefMutUpdate f).inner = f a.inner) ∧
    (∀ (T : Type) (a : MaybeStdinVec T) (f : List T → List T),
      (a.derefMutUpdate f).is_stdin = a.is_stdin ∧
      (a.derefMutUpdate f).inner = f a.inner) := by
  refine ⟨?_, ?_, fun T a f => ⟨rfl, rfl⟩, fun T a f => ⟨rfl, rfl⟩⟩
  · intro T ε display from_source w t g g2 a source hsource h
    obtain ⟨source2, heq, hflag⟩ := maybeStdinFromSource_from_str_flag h
    rw [heq] at hsource
    injection hsource with hs
    subst hs
    exact hflag
  · intro T D fromStr w t g g2 a source hsource h
    obtain ⟨source2, heq, hflag⟩ := maybeStdinVec_from_str_flag h
    rw [heq] at hsource
    injection hsource with hs
    subst hs
    exact hflag

theorem provenance_flag_invariant_witness :
    (⟨["a", "b", "c"], true⟩ : MaybeStdinVec String).is_stdin
      = Source.isStdinVariant Source.Stdin :=
  provenance_flag_invariant.2.1 String ',' okStr wex "-" false true
    ⟨["a", "b", "c"], true⟩ Source.Stdin rfl (by rfl)

/-- C8: the SourceAdapter entry point builds the `Source` from the token and
hands that live source, with the guard untouched, to the caller-supplied
`from_source` routine; a failing routine makes the adapter fail with
`FromStr` carrying exactly the display text of the routine's error, and the
`FromSource` error kind is never produced. -/
theorem source_adapter_delegation :
    ∀ (T ε : Type) (display : ε → String)
      (from_source : Source → World → Bool → Except ε T × Bool)
      (w : World) (t : String) (g : Bool) (source : Source),
      Source.from_str t = .ok source →
      (∀ (e : ε) (g2 : Bool), from_source source w g = (.error e, g2) →
        MaybeStdinFromSource.from_str display from_source w t g
          = (.error (.FromStr (display e)), g2)) ∧
      (∀ (v : T) (g2 : Bool), from_source source w g = (.ok v, g2) →
        MaybeStdinFromSource.from_str display from_source w t g
          = (.ok ⟨v, source.isStdinVariant⟩, g2)) ∧
      (∀ (r : Except StdinError (MaybeStdinFromSource T)) (g2 : Bool)
        (m : String),
        MaybeStdinFromSource.from_str display from_source w t g = (r, g2) →
        r ≠ .error (.FromSource m)) := by
  intro T ε display from_source w t g source hsource
  refine ⟨?_, ?_, ?_⟩
  · intro e g2 hfs
    simp only [MaybeStdinFromSource.from_str, hsource, hfs]
  · intro v g2 hfs
    simp only [MaybeStdinFromSource.from_str, hsource, hfs]
  · intro r g2 m h hc
    subst hc
    unfold MaybeStdinFromSource.from_str at h
    split at h
    · exact absurd (by assumption) (source_from_str_ne_error t _)
    · split at h
      · simp only [Prod.mk.injEq, Except.error.injEq] at h
        obtain ⟨h1, -⟩ := h
        cases h1
      · simp at h

theorem source_adapter_delegation_witness :
    MaybeStdinFromSource.from_str (fun e => e)
      (fun (_ : Source) (_ : World) (g : Bool) =>
        ((.error "boom" : Except String String), g)) wex "x" false
      = (.error (.FromStr "boom"), false) :=
  (source_adapter_delegation String String (fun e => e)
    (fun _ _ g => (.error "boom", g)) wex "x" false (.Arg "x") rfl).1
    "boom" false rfl

/-- C5: the list adapter trims the materialized text, splits it on newline
boundaries when the source is stdin and on the configured delimiter
character otherwise, and converts the pieces in order: comma-joined
argument text with the default comma delimiter yields the three elements,
dash-joined argument text with a dash delimiter yields the same, and
newline-terminated stdin content yields the same three elements with no
empty trailing element. -/
theorem vec_split_round_trip :
    (∀ (T : Type) (f : String → T) (D : Char) (w : World) (t : String)
      (g : Bool), t ≠ "-" →
      MaybeStdinVec.from_str D (fun s => .ok (f s)) w t g
        = (.ok ⟨(rustSplitChar D (rustTrim t)).map f, false⟩, g)) ∧
    (∀ (T : Type) (f : String → T) (D : Char) (w : World) (c : String),
      w.stdinRead = .ok c →
      MaybeStdinVec.from_str D (fun s => .ok (f s)) w "-" false
        = (.ok ⟨(rustLines (rustTrim c)).map f, true⟩, true)) ∧
    (MaybeStdinVec.from_str ',' okStr wex "a,b,c" false
      = (.ok ⟨["a", "b", "c"], false⟩, false)) ∧
    (MaybeStdinVec.from_str '-' okStr wex "a-b-c" false
      = (.ok ⟨["a", "b", "c"], false⟩, false)) ∧
    (MaybeStdinVec.from_str ',' okStr wex "-" false
      = (.ok ⟨["a", "b", "c"], true⟩, true)) := by
  refine ⟨?_, ?_, by rfl, by rfl, by rfl⟩
  · intro T f D w t g ht
    unfold MaybeStdinVec.from_str
    rw [source_from_str_eq t, if_neg ht]
    simp only [Source.isStdinVariant, Source.get_value, Bool.false_eq_true,
      if_false, parseAll_ok_map]
  · intro T f D w c hw
    unfold MaybeStdinVec.from_str
    rw [source_from_str_eq "-", if_pos rfl]
    simp only [Source.isStdinVariant, Source.get_value, Bool.false_eq_true,
      if_true, if_false, hw, parseAll_ok_map]

theorem vec_split_round_trip_witness :
    MaybeStdinVec.from_str ',' (fun s => .ok (String.length s)) wex "-" false
      = (.ok ⟨(rustLines (rustTrim "a\nb\nc\n")).map String.length, true⟩,
         true) :=
  vec_split_round_trip.2.1 Nat String.length ',' wex "a\nb\nc\n" rfl

/-- C6: whenever some element of the split fails the caller's conversion,
the list adapter fails with `FromStr` describing the first failing element
and yields no partial sequence; e.g. a comma-joined list whose middle
element is not a numeral fails, with a natural-number element type, on that
middle element. -/
theorem vec_fail_fast :
    (∀ (T : Type) (fromStr : String → Except String T) (D : Char) (w : World)
      (t : String) (g : Bool) (m : String), t ≠ "-" →
      firstErr fromStr (rustSplitChar D (rustTrim t)) = some m →
      MaybeStdinVec.from_str D fromStr w t g = (.error (.FromStr m), g)) ∧
    (∀ (T : Type) (fromStr : String → Except String T) (D : Char) (w : World)
      (c : String) (m : String), w.stdinRead = .ok c →
      firstErr fromStr (rustLines (rustTrim c)) = some m →
      MaybeStdinVec.from_str D fromStr w "-" false
        = (.error (.FromStr m), true)) ∧
    (∀ (T : Type) (fromStr : String → Except String T) (xs : List String),
      (∃ x ∈ xs, ∃ e, fromStr x = .error e) →
      ∃ m, firstErr fromStr xs = some m) ∧
    (MaybeStdinVec.from_str ',' parseNat wex "1,x,3" false
      = (.error (.FromStr "invalid digit in x"), false)) := by
  refine ⟨?_, ?_, ?_, by rfl⟩
  · intro T fromStr D w t g m ht hfirst
    unfold MaybeStdinVec.from_str
    rw [source_from_str_eq t, if_neg ht]
    simp only [Source.isStdinVariant, Source.get_value, Bool.false_eq_true,
      if_false, parseAll_of_firstErr fromStr _ m hfirst]
  · intro T fromStr D w c m hw hfirst
    unfold MaybeStdinVec.from_str
    rw [source_from_str_eq "-", if_pos rfl]
    simp only [Source.isStdinVariant, Source.get_value, Bool.false_eq_true,
      if_true, if_false, hw, parseAll_of_firstErr fromStr _ m hfirst]
  · intro T fromStr xs hex
    induction xs with
    | nil =>
      obtain ⟨x, hx, -⟩ := hex
      cases hx
    | cons x xs ih =>
      cases hx : fromStr x with
      | error e => exact ⟨e, by simp [firstErr, hx]⟩
      | ok v =>
        obtain ⟨y, hy, e, he⟩ := hex
        rcases List.mem_cons.mp hy with hyx | hyxs
        · subst hyx
          rw [hx] at he
          cases he
        · obtain ⟨m, hm⟩ := ih ⟨y, hyxs, e, he⟩
          exact ⟨m, by simp [firstErr, hx, hm]⟩

theorem vec_fail_fast_witness :
    MaybeStdinVec.from_str '-' parseNat wex "4-x" false
      = (.error (.FromStr "invalid digit in x"), false) :=
  vec_fail_fast.1 Nat parseNat '-' wex "4-x" false "invalid digit in x"
    (by decide) (by rfl)

/-- C9: direct construction of the list adapter from an already-materialized
sequence of strings converts every element with the caller's `from_str`,
marks `is_stdin = false`, and on any element's conversion failure aborts the
process with a panic instead of returning a recoverable error. -/
theorem vec_from_iter_strict :
    (∀ (T : Type) (fromStr : String → Except String T) (xs : List String)
      (vs : List T), collectResults (xs.map fromStr) = .ok vs →
      MaybeStdinVec.from_iter fromStr xs = .ok ⟨vs, false⟩) ∧
    (∀ (T : Type) (fromStr : String → Except String T) (xs : List String)
      (m : String), firstErr fromStr xs = some m →
      MaybeStdinVec.from_iter fromStr xs
        = .error (.panicked ("Failed to parse input: " ++ m))) := by
  constructor
  · intro T fromStr xs vs h
    unfold MaybeStdinVec.from_iter
    rw [h]
  · intro T fromStr xs m h
    unfold MaybeStdinVec.from_iter
    rw [collect_of_firstErr fromStr xs m h]

theorem vec_from_iter_strict_witness :
    MaybeStdinVec.from_iter parseNat ["1", "x", "3"]
      = .error (.panicked ("Failed to parse input: " ++ "invalid digit in x")) :=
  vec_from_iter_strict.2 Nat parseNat ["1", "x", "3"] "invalid digit in x"
    (by rfl)

/-- C10: stdin content that trims to nothing parses to the empty sequence
without the element converter ever being invoked, while a non-sentinel
argument token whose trimmed text is empty splits into exactly one
empty-string element that is handed to the converter, giving a one-element
list or a `FromStr` failure but never an empty list. -/
theorem vec_empty_input_asymmetry :
    (∀ (T : Type) (fromStr : String → Except String T) (D : Char) (w : World)
      (c : String), w.stdinRead = .ok c → rustTrim c = "" →
      MaybeStdinVec.from_str D fromStr w "-" false = (.ok ⟨[], true⟩, true)) ∧
    (∀ (T : Type) (fromStr : String → Except String T) (D : Char) (w : World)
      (t : String) (g : Bool), t ≠ "-" → rustTrim t = "" →
      MaybeStdinVec.from_str D fromStr w t g
        = (match fromStr "" with
           | .ok v => (.ok ⟨[v], false⟩, g)
           | .error e => (.error (.FromStr e), g))) := by
  constructor
  · intro T fromStr D w c hw htrim
    unfold MaybeStdinVec.from_str
    rw [source_from_str_eq "-", if_pos rfl]
    simp only [Source.isStdinVariant, Source.get_value, Bool.false_eq_true,
      if_true, if_false, hw, htrim]
    rfl
  · intro T fromStr D w t g ht htrim
    unfold MaybeStdinVec.from_str
    rw [source_from_str_eq t, if_neg ht]
    simp only [Source.isStdinVariant, Source.get_value, Bool.false_eq_true,
      if_false, htrim]
    cases hv : fromStr "" with
    | ok v => simp [rustSplitChar, splitCharAux, parseAll, hv]
    | error e => simp [rustSplitChar, splitCharAux, parseAll, hv]

theorem vec_empty_input_asymmetry_witness :
    MaybeStdinVec.from_str ',' okStr wex "" false
      = (match okStr "" with
         | .ok v => (.ok ⟨[v], false⟩, false)
         | .error e => (.error (.FromStr e), false)) :=
  vec_empty_input_asymmetry.2 String okStr ',' wex "" false (by decide) rfl

end ClapStdin
